import Mathlib

/-!
Verification of `buildlib/generic.py` (ungoogled-chromium build library).

This file gives a shallow embedding of the sandbox-preparation pipeline of
`GenericPlatform`:

* `check_source_archive`  embeds `_check_source_archive` (hash manifest check),
* `extract_source_archive` embeds `_extract_source_archive` (denylist-aware
  tar extraction, entries given by their prefix-stripped relative paths),
* `get_parsed_domain_regexes` embeds `_read_list_resource` (binary mode) plus
  `_get_parsed_domain_regexes` (regex-list parsing),
* `domain_substitute` embeds `_domain_substitute` (the substitution engine),
* `generate_patches` embeds `_generate_patches` (patch-tree assembly),
* `setup_source_tail` embeds the tail of `setup_chromium_source`
  (integrity check, extraction, leftover-denylist warnings).

Byte strings are `List Nat`; file trees are association lists from file name
to content.  Logging calls are modelled as `LogEvent` values; a Python
exception is an `Except.error` carrying the exception name.
-/

set_option linter.unnecessarySimpa false

namespace UngoogledChromium

/-- Severity of a Python `logging` call in `generic.py`. -/
inductive LogLevel
  | info
  | debug
  | error
  | warning
deriving DecidableEq, Repr

/-- One logger invocation: severity plus the formatted message string. -/
structure LogEvent where
  level : LogLevel
  msg : String
deriving DecidableEq, Repr

/-! ## Hash manifest verification (`_check_source_archive`, lines 108-126) -/

/-- Model of Python `line.split("  ")` (split on every occurrence of two
consecutive spaces, leftmost first, non-overlapping), on character lists. -/
def splitTwoSp : List Char → List (List Char)
  | [] => [[]]
  | ' ' :: ' ' :: cs => [] :: splitTwoSp cs
  | c :: cs =>
    match splitTwoSp cs with
    | [] => [[c]]
    | x :: xs => (c :: x) :: xs

/-- Python `line.split("  ")` on strings. -/
def splitDoubleSpace (s : String) : List String :=
  (splitTwoSp s.toList).map (fun l => String.mk l)

/-- Wrap a string in single quotes, as Python `'{}'.format` does in the log
messages of `_check_source_archive`. -/
def pyq (s : String) : String := "\x27" ++ s ++ "\x27"

/-- Message of line 116: `Running '{}' hash check...`. -/
def msgRunning (alg : String) : String :=
  "Running " ++ pyq alg ++ " hash check..."

/-- Message of line 121: `'{}' hash matches`. -/
def msgMatches (alg : String) : String :=
  pyq alg ++ " hash matches"

/-- Message of line 123: `Archive does not have matching '{algorithm}' hash
'{hashhex}'`; note that only the algorithm and the EXPECTED digest
(`hash_line[1]`) are interpolated, not the recomputed digest. -/
def msgMismatch (alg expected : String) : String :=
  "Archive does not have matching " ++ pyq alg ++ " hash " ++ pyq expected

/-- Message of line 126: `Hash algorithm '{}' not available. Skipping...`. -/
def msgUnavailable (alg : String) : String :=
  "Hash algorithm " ++ pyq alg ++ " not available. Skipping..."

/-- Embedding of `_check_source_archive` (lines 108-126).

`lines` is `hashes_file.read().split("\n")`; each line is split on two
spaces, giving `hash_line`.  `available` models `hashlib.algorithms_available`
and `digestOf alg` models `hashlib.new(alg)` fed the whole source archive,
i.e. the recomputed hex digest of the archive under algorithm `alg`
(`hexdigest()` output, which in Python is always lower-case hex).

The result is the list of log events plus a flag recording whether the
`return None` of line 124 (first digest mismatch) was taken; the Python
return VALUE is `None` on every path, so the flag is observable only through
the log and the truncated processing, never through the return value.
`hash_line[1]` on a line without a two-space separator raises `IndexError`. -/
def check_source_archive (available : List String) (digestOf : String → String) :
    List String → Except String (List LogEvent × Bool)
  | [] => .ok ([], false)
  | line :: rest =>
    let parts := splitDoubleSpace line
    let alg := parts.headI
    if alg ∈ available then
      match parts[1]? with
      | none => .error "IndexError"
      | some expected =>
        if digestOf alg = expected then
          match check_source_archive available digestOf rest with
          | .error e => .error e
          | .ok (evs, b) =>
            .ok (⟨.info, msgRunning alg⟩ :: ⟨.debug, msgMatches alg⟩ :: evs, b)
        else
          .ok ([⟨.info, msgRunning alg⟩, ⟨.error, msgMismatch alg expected⟩], true)
    else
      match check_source_archive available digestOf rest with
      | .error e => .error e
      | .ok (evs, b) => .ok (⟨.warning, msgUnavailable alg⟩ :: evs, b)

/-- A manifest line that `_check_source_archive` passes through without an
exception and without a mismatch: its algorithm is unavailable, or the
recomputed digest equals the expected one. -/
def hashLineOk (available : List String) (digestOf : String → String)
    (line : String) : Bool :=
  let parts := splitDoubleSpace line
  let alg := parts.headI
  if alg ∈ available then
    match parts[1]? with
    | none => false
    | some expected => digestOf alg == expected
  else true

/-- Log events produced by a passing manifest line. -/
def hashLineEvents (available : List String) (line : String) : List LogEvent :=
  let parts := splitDoubleSpace line
  let alg := parts.headI
  if alg ∈ available then
    [⟨.info, msgRunning alg⟩, ⟨.debug, msgMatches alg⟩]
  else
    [⟨.warning, msgUnavailable alg⟩]

/-- Log events of a list of passing manifest lines, in order. -/
def hashLinesEvents (available : List String) : List String → List LogEvent
  | [] => []
  | l :: rest => hashLineEvents available l ++ hashLinesEvents available rest

/-! ## Archive extraction (`_extract_source_archive`, lines 143-164)

Tar entries are given by their POSIX relative path after
`relative_to("chromium-{version}")` prefix stripping; an entry outside the
versioned prefix aborts the whole extraction (exception re-raised at line
164) and is not modelled here, since all claims concern completed
extractions. -/

/-- State of the extraction loop: paths materialized under the sandbox root,
paths skipped because they matched the cleaning list, and the remaining
(mutated) cleaning list. -/
structure ExtractState where
  extracted : List String
  matched : List String
  cleaning : List String
deriving DecidableEq, Repr

/-- One iteration of the member loop (lines 154-161): if the entry's relative
path is in the cleaning list (`in`: exact string equality against a list
element), remove its first occurrence (`list.remove`) and skip extraction;
otherwise extract the member under the sandbox root. -/
def extractStep (st : ExtractState) (path : String) : ExtractState :=
  if path ∈ st.cleaning then
    { st with matched := st.matched ++ [path], cleaning := st.cleaning.erase path }
  else
    { st with extracted := st.extracted ++ [path] }

/-- Embedding of `_extract_source_archive`: fold the member loop over the
archive entries, starting from the caller-supplied cleaning list. -/
def extract_source_archive (entries cleaning : List String) : ExtractState :=
  entries.foldl extractStep { extracted := [], matched := [], cleaning := cleaning }

/-- Warnings emitted by `setup_chromium_source` lines 343-344: one
`File does not exist in tar file: {}` warning per leftover cleaning-list
entry. -/
def extract_cleaning_warnings (entries cleaning : List String) : List String :=
  (extract_source_archive entries cleaning).cleaning.map
    (fun i => "File does not exist in tar file: " ++ i)

/-- Embedding of the tail of `setup_chromium_source` (lines 334-346) with
`check_integrity=True`, `extract_archive=True`, `use_cleaning_list=True`:
run `_check_source_archive` — whose return value is DISCARDED (line 336 is a
bare call) — then extract the archive and warn about leftover cleaning-list
entries.  Only a Python exception from the check stops the pipeline; a digest
mismatch does not. -/
def setup_source_tail (available : List String) (digestOf : String → String)
    (hashLines : List String) (entries cleaning : List String) :
    Except String (List LogEvent × ExtractState × List String) :=
  match check_source_archive available digestOf hashLines with
  | .error e => .error e
  | .ok (evs, _) =>
    .ok (evs, extract_source_archive entries cleaning,
         extract_cleaning_warnings entries cleaning)

/-! ## Regex-list parsing (`_read_list_resource` + `_get_parsed_domain_regexes`,
lines 92-106 and 166-172) -/

/-- Byte strings (Python `bytes`): lists of byte values. -/
abbrev Bytes := List Nat

/-- Embedding of `_read_list_resource` in binary mode: the common file's
lines, extended with the platform file's lines when a platform resource
exists, with empty lines filtered out (`len(x) > 0`). -/
def read_list_resource (common : List Bytes) (platform : Option (List Bytes)) :
    List Bytes :=
  (common ++ (match platform with | some p => p | none => [])).filter
    (fun x => 0 < x.length)

/-- Model of Python `bytes.split(sep)` for a single-byte separator `b`:
split at EVERY occurrence of `b`. -/
def splitOnByte (b : Nat) : Bytes → List Bytes
  | [] => [[]]
  | c :: cs =>
    match splitOnByte b cs with
    | [] => [[c]]
    | x :: xs => if c = b then [] :: x :: xs else (c :: x) :: xs

/-- Parsing of one regex-list line (lines 170-171):
`expression.split(b'#')` followed by indexing `expression[0]` and
`expression[1]`.  `re.compile` is modelled as keeping the pattern bytes; a
line with no `#` has a single-element split, so `expression[1]` raises
`IndexError`.  Bytes after a SECOND `#` land in `expression[2]` and further
elements, which the code never reads. -/
def parseRegexLine (line : Bytes) : Except String (Bytes × Bytes) :=
  match splitOnByte 35 line with
  | p0 :: p1 :: _ => .ok (p0, p1)
  | _ => .error "IndexError"

/-- Sequential parsing of all regex-list lines (the `for expression in ...`
loop of lines 169-171); the first `IndexError` aborts parsing. -/
def parseRegexLines : List Bytes → Except String (List (Bytes × Bytes))
  | [] => .ok []
  | l :: rest =>
    match parseRegexLine l with
    | .error e => .error e
    | .ok r =>
      match parseRegexLines rest with
      | .error e => .error e
      | .ok rs => .ok (r :: rs)

/-- Embedding of `_get_parsed_domain_regexes` on a cold cache: read the
regex-list resource (binary mode, empty lines dropped) and parse each line. -/
def get_parsed_domain_regexes (common : List Bytes)
    (platform : Option (List Bytes)) : Except String (List (Bytes × Bytes)) :=
  parseRegexLines (read_list_resource common platform)

/-! ## Domain substitution (`_domain_substitute`, lines 174-195) -/

/-- Behaviour of a compiled regex under `subn`: content in, replaced content
and substitution count out. -/
abbrev SubRule := Bytes → Bytes × Nat

/-- Fuel-indexed model of `re.subn` for a LITERAL, non-empty pattern with a
literal replacement: scan left to right, replace each non-overlapping
occurrence of `pat` by `repl`, and count the replacements.  The fuel is an
upper bound on the content length, making the recursion structural. -/
def literalSubnFuel (pat repl : Bytes) : Nat → Bytes → Bytes × Nat
  | 0, c => (c, 0)
  | _ + 1, [] => ([], 0)
  | fuel + 1, c :: cs =>
    if pat ≠ [] ∧ pat.isPrefixOf (c :: cs) then
      let r := literalSubnFuel pat repl fuel ((c :: cs).drop pat.length)
      (repl ++ r.1, r.2 + 1)
    else
      let r := literalSubnFuel pat repl fuel cs
      (c :: r.1, r.2)

/-- Model of `re.subn` for a literal non-empty pattern, as a `SubRule`. -/
def literalSubn (pat repl : Bytes) : SubRule :=
  fun content => literalSubnFuel pat repl content.length content

/-- The inner rule loop of `_domain_substitute` (lines 183-186): apply each
rule in list order, each rule's output feeding the next rule's input, summing
the substitution counts. -/
def applyRulesAux : List SubRule → Bytes × Nat → Bytes × Nat
  | [], acc => acc
  | r :: rs, acc => applyRulesAux rs ((r acc.1).1, acc.2 + (r acc.1).2)

/-- Final content of one file after `_domain_substitute`: the transformed
bytes when the total substitution count is positive (lines 187-190 write
back), the original bytes otherwise (no write). -/
def substituteFileContent (rules : List SubRule) (content : Bytes) : Bytes :=
  let p := applyRulesAux rules (content, 0)
  if 0 < p.2 then p.1 else content

/-- Embedding of `_domain_substitute` (lines 174-195) over an in-memory file
list `(path, content)`: returns the final file contents plus the emitted
`File {} has no matches` warnings (line 192, only when `log_warnings`). -/
def domain_substitute (regex_list : List SubRule) :
    List (String × Bytes) → Bool → List (String × Bytes) × List String
  | [], _ => ([], [])
  | (path, content) :: rest, log_warnings =>
    let p := applyRulesAux regex_list (content, 0)
    let newContent := if 0 < p.2 then p.1 else content
    let warns :=
      if p.2 = 0 ∧ log_warnings then ["File " ++ path ++ " has no matches"] else []
    let r := domain_substitute regex_list rest log_warnings
    ((path, newContent) :: r.1, warns ++ r.2)

/-- Compiled rule list of a list of literal `(pattern, replacement)` pairs. -/
def rulesOf (specs : List (Bytes × Bytes)) : List SubRule :=
  specs.map (fun s => literalSubn s.1 s.2)

/-- Decides whether the literal pattern `pat` occurs as a contiguous segment
of `l` (for `Bytes`: whether `re.subn` with pattern `pat` would make at least
one substitution in `l`). -/
def hasMatch {α : Type} [DecidableEq α] (pat : List α) : List α → Bool
  | [] => pat.isPrefixOf []
  | c :: cs => pat.isPrefixOf (c :: cs) || hasMatch pat cs

/-- Decides whether `needle` occurs as a substring of `hay`. -/
def strContains (hay needle : String) : Bool :=
  hasMatch needle.toList hay.toList

/-- ASCII lower-casing of one character (used to state that two hex digests
differ only in letter case). -/
def asciiLower (c : Char) : Char :=
  if 65 ≤ c.toNat ∧ c.toNat ≤ 90 then Char.ofNat (c.toNat + 32) else c

/-- Well-formedness condition of the spec for literal rules: no rule whose
replacement re-matches (contains an occurrence of) its own pattern. -/
def wellFormedRules (specs : List (Bytes × Bytes)) : Bool :=
  specs.all (fun s => !(hasMatch s.1 s.2))

/-- Total number of substitutions one engine run performs over a file list. -/
def total_substitutions (rules : List SubRule) (files : List (String × Bytes)) :
    Nat :=
  files.foldl (fun acc f => acc + (applyRulesAux rules (f.2, 0)).2) 0

/-! ## Patch assembly (`_generate_patches`, lines 197-216)

Directory trees are association lists from file name (relative to the
directory) to file content.  `distutils.dir_util.copy_tree` copies every
file of the source tree into the destination, overwriting same-named files.
-/

/-- A flat model of a directory tree: file name to content. -/
abbrev FileMap := List (String × String)

/-- Content of a named file in a tree, if present (first match). -/
def lookupFile (m : FileMap) (k : String) : Option String :=
  match m with
  | [] => none
  | (k2, v) :: rest => if k2 = k then some v else lookupFile rest k

/-- Model of `unlink`: remove a named file from a tree. -/
def removeFile (m : FileMap) (k : String) : FileMap :=
  m.filter (fun p => p.1 ≠ k)

/-- Write a file into a tree, overwriting any previous file of that name. -/
def setFile (m : FileMap) (k v : String) : FileMap :=
  removeFile m k ++ [(k, v)]

/-- Model of `distutils.dir_util.copy_tree`: copy every file of `upper` into
`base`, overwriting same-named files. -/
def overlayFiles (base upper : FileMap) : FileMap :=
  upper.foldl (fun acc p => setFile acc p.1 p.2) base

/-- The `patch_order` file name. -/
def PATCH_ORDER : String := "patch_order"

/-- Embedding of `_generate_patches` (lines 197-216) into a fresh output
directory.  `commonFiles` is the tree under `COMMON_RESOURCES/patches`,
`platform` the tree under `PLATFORM_RESOURCES/patches` (`none` when
`PLATFORM_RESOURCES is None`).

Faithful failure modes of the source:
* `PLATFORM_RESOURCES is None` raises `TypeError` at line 198
  (`None / self.PATCHES`);
* a missing common `patch_order` raises `FileNotFoundError` at line 200;
* when the platform tree has no `patch_order`, line 210 unlinks a file that
  no longer exists (it was removed at line 208 and the platform copy did not
  re-create it), raising `FileNotFoundError`;
* with `run_domain_substitution=True`, line 216 evaluates
  `self.sandbox_patches`, an attribute no method of the class ever assigns,
  raising `AttributeError` — the substitution engine is never invoked. -/
def generate_patches (commonFiles : FileMap) (platform : Option FileMap)
    (run_domain_substitution : Bool) : Except String FileMap :=
  match platform with
  | none => .error "TypeError"
  | some platformFiles =>
    match lookupFile commonFiles PATCH_ORDER with
    | none => .error "FileNotFoundError"
    | some commonOrder =>
      let new_patch_order :=
        commonOrder ++
          (match lookupFile platformFiles PATCH_ORDER with
           | some p => p
           | none => "")
      let out1 := commonFiles
      let out2 := removeFile out1 PATCH_ORDER
      let out3 := overlayFiles out2 platformFiles
      match lookupFile out3 PATCH_ORDER with
      | none => .error "FileNotFoundError"
      | some _ =>
        let out4 := removeFile out3 PATCH_ORDER
        let out5 := setFile out4 PATCH_ORDER new_patch_order
        if run_domain_substitution then .error "AttributeError"
        else .ok out5

/-- Number of lines of a character list, following Python `str.splitlines()`
counting for newline-delimited text: the number of newline characters, plus
one when the text is non-empty and does not end with a newline. -/
def countLinesList (l : List Char) : Nat :=
  l.count '\n' + (if l ≠ [] ∧ l.getLast? ≠ some '\n' then 1 else 0)

/-- Number of lines of a text (Python `str.splitlines()` counting). -/
def countLines (s : String) : Nat :=
  countLinesList s.toList

/-! ## Lemmas about the extraction loop -/

/-- Union invariant of the member loop: a path ends up extracted or matched
exactly when it was already there or is one of the processed entries. -/
lemma extract_foldl_mem_union (entries : List String) :
    ∀ (st : ExtractState) (p : String),
      (p ∈ (entries.foldl extractStep st).extracted ∨
        p ∈ (entries.foldl extractStep st).matched) ↔
      (p ∈ st.extracted ∨ p ∈ st.matched ∨ p ∈ entries) := by
  induction entries with
  | nil => intro st p; simp
  | cons e es ih =>
    intro st p
    rw [List.foldl_cons, ih]
    unfold extractStep
    by_cases h : e ∈ st.cleaning
    · simp only [if_pos h, List.mem_append, List.mem_singleton, List.mem_cons]
      tauto
    · simp only [if_neg h, List.mem_append, List.mem_singleton, List.mem_cons]
      tauto

/-- Every matched path satisfies any predicate holding on the current matched
list and the current cleaning list (matched paths are drawn from the cleaning
list). -/
lemma extract_foldl_matched_pred (C : String → Prop) (entries : List String) :
    ∀ (st : ExtractState), (∀ p ∈ st.matched, C p) → (∀ p ∈ st.cleaning, C p) →
      ∀ p ∈ (entries.foldl extractStep st).matched, C p := by
  induction entries with
  | nil => intro st hm _ p hp; exact hm p hp
  | cons e es ih =>
    intro st hm hc
    rw [List.foldl_cons]
    unfold extractStep
    by_cases h : e ∈ st.cleaning
    · rw [if_pos h]
      refine ih _ ?_ ?_
      · intro p hp
        rcases List.mem_append.1 hp with hp | hp
        · exact hm p hp
        · rw [List.mem_singleton] at hp; subst hp; exact hc p h
      · intro p hp
        exact hc p (List.mem_of_mem_erase hp)
    · rw [if_neg h]
      exact ih _ hm hc

/-- Disjointness invariant of the member loop when the remaining entries are
duplicate-free and fresh with respect to the accumulated state. -/
lemma extract_foldl_disjoint (entries : List String) :
    ∀ (st : ExtractState), entries.Nodup →
      (∀ p ∈ st.extracted, p ∉ entries) →
      (∀ p ∈ st.matched, p ∉ entries) →
      (∀ p ∈ st.extracted, p ∉ st.matched) →
      ∀ p ∈ (entries.foldl extractStep st).extracted,
        p ∉ (entries.foldl extractStep st).matched := by
  induction entries with
  | nil => intro st _ _ _ hd p hp; exact hd p hp
  | cons e es ih =>
    intro st hnd hex hma hd
    have hends : e ∉ es := (List.nodup_cons.1 hnd).1
    have hnd' : es.Nodup := (List.nodup_cons.1 hnd).2
    rw [List.foldl_cons]
    unfold extractStep
    by_cases h : e ∈ st.cleaning
    · rw [if_pos h]
      refine ih _ hnd' ?_ ?_ ?_
      · intro p hp
        exact fun hc => hex p hp (List.mem_cons_of_mem _ hc)
      · intro p hp
        rcases List.mem_append.1 hp with hp | hp
        · exact fun hc => hma p hp (List.mem_cons_of_mem _ hc)
        · rw [List.mem_singleton] at hp; subst hp; exact hends
      · intro p hp hq
        rcases List.mem_append.1 hq with hq | hq
        · exact hd p hp hq
        · rw [List.mem_singleton] at hq; subst hq
          exact hex p hp (List.mem_cons_self _ _)
    · rw [if_neg h]
      refine ih _ hnd' ?_ ?_ ?_
      · intro p hp
        rcases List.mem_append.1 hp with hp | hp
        · exact fun hc => hex p hp (List.mem_cons_of_mem _ hc)
        · rw [List.mem_singleton] at hp; subst hp; exact hends
      · intro p hp
        exact fun hc => hma p hp (List.mem_cons_of_mem _ hc)
      · intro p hp
        rcases List.mem_append.1 hp with hp | hp
        · exact hd p hp
        · rw [List.mem_singleton] at hp; subst hp
          exact fun hq => hma p hq (List.mem_cons_self _ _)

/-- The cleaning-list component of the loop state only depends on the
cleaning list, evolving by remove-first-occurrence on each match. -/
lemma extract_foldl_cleaning (entries : List String) :
    ∀ (st : ExtractState),
      (entries.foldl extractStep st).cleaning =
        entries.foldl (fun cl e => if e ∈ cl then cl.erase e else cl) st.cleaning := by
  induction entries with
  | nil => intro st; rfl
  | cons e es ih =>
    intro st
    rw [List.foldl_cons, List.foldl_cons, ih]
    unfold extractStep
    by_cases h : e ∈ st.cleaning
    · rw [if_pos h, if_pos h]
    · rw [if_neg h, if_neg h]

/-- For a duplicate-free cleaning list, an element survives the removal fold
exactly when it was present initially and matches no processed entry. -/
lemma cleaning_fold_mem (entries : List String) :
    ∀ (cl : List String), cl.Nodup → ∀ c,
      (c ∈ entries.foldl (fun cl e => if e ∈ cl then cl.erase e else cl) cl ↔
        (c ∈ cl ∧ c ∉ entries)) := by
  induction entries with
  | nil => intro cl _ c; simp
  | cons e es ih =>
    intro cl hnd c
    rw [List.foldl_cons]
    by_cases h : e ∈ cl
    · rw [if_pos h, ih _ (hnd.erase e) c, hnd.mem_erase_iff]
      simp only [List.mem_cons]
      constructor
      · rintro ⟨⟨hne, hc⟩, hes⟩
        exact ⟨hc, fun hor => hor.elim hne hes⟩
      · rintro ⟨hc, hor⟩
        push_neg at hor
        exact ⟨⟨hor.1, hc⟩, hor.2⟩
    · rw [if_neg h, ih _ hnd c]
      simp only [List.mem_cons]
      constructor
      · rintro ⟨hc, hes⟩
        refine ⟨hc, fun hor => ?_⟩
        rcases hor with rfl | hor
        · exact h hc
        · exact hes hor
      · rintro ⟨hc, hor⟩
        push_neg at hor
        exact ⟨hc, hor.2⟩

/-! ## Claims C2 and C3: extraction partition and leftover denylist -/

/-- C2 (amended): for every tar archive whose entry relative paths are
pairwise distinct and every denylist, the set of extracted relative paths and
the set of matched (skipped) denylist entries partition the set of archive
entry paths — their union is the set of all entry paths and they are
disjoint — and every skip decision is an exact string match: each matched
path is literally an element of the original denylist.  (The original claim,
quantified over ALL archives, fails on archives with duplicate entry paths;
see the counterexample.) -/
theorem C2_extraction_partition (entries cleaning : List String)
    (hnd : entries.Nodup) :
    (∀ p, (p ∈ (extract_source_archive entries cleaning).extracted ∨
            p ∈ (extract_source_archive entries cleaning).matched) ↔ p ∈ entries)
    ∧ (∀ p ∈ (extract_source_archive entries cleaning).matched, p ∈ cleaning)
    ∧ (∀ p ∈ (extract_source_archive entries cleaning).extracted,
        p ∉ (extract_source_archive entries cleaning).matched) := by
  unfold extract_source_archive
  refine ⟨?_, ?_, ?_⟩
  · intro p
    rw [extract_foldl_mem_union]
    simp
  · exact extract_foldl_matched_pred (· ∈ cleaning) entries _
      (by intro p hp; simp at hp) (by intro p hp; exact hp)
  · exact extract_foldl_disjoint entries _ hnd
      (by intro p hp; simp at hp) (by intro p hp; simp at hp)
      (by intro p hp; simp at hp)

/-- Witness for C2: the spec's own concrete scenario — archive entries
`a/b.txt`, `e/f.txt` and denylist `a/b.txt`, `c/d.txt`. -/
theorem C2_extraction_partition_witness :
    (["a/b.txt", "e/f.txt"] : List String).Nodup ∧
    ((∀ p, (p ∈ (extract_source_archive ["a/b.txt", "e/f.txt"]
                  ["a/b.txt", "c/d.txt"]).extracted ∨
            p ∈ (extract_source_archive ["a/b.txt", "e/f.txt"]
                  ["a/b.txt", "c/d.txt"]).matched) ↔ p ∈ ["a/b.txt", "e/f.txt"])
     ∧ (∀ p ∈ (extract_source_archive ["a/b.txt", "e/f.txt"]
                ["a/b.txt", "c/d.txt"]).matched, p ∈ ["a/b.txt", "c/d.txt"])
     ∧ (∀ p ∈ (extract_source_archive ["a/b.txt", "e/f.txt"]
                ["a/b.txt", "c/d.txt"]).extracted,
          p ∉ (extract_source_archive ["a/b.txt", "e/f.txt"]
                ["a/b.txt", "c/d.txt"]).matched)) :=
  ⟨by decide, C2_extraction_partition _ _ (by decide)⟩

/-- Counterexample to C2 as stated: an archive containing the same relative
path `p` twice, with denylist `[p]`.  The first occurrence is matched
(skipped) and removed from the denylist; the second occurrence is then
extracted, so `p` lies in BOTH the extracted set and the matched set — the
two sets are not disjoint. -/
theorem C2_extraction_partition_counterexample :
    "p" ∈ (extract_source_archive ["p", "p"] ["p"]).extracted ∧
    "p" ∈ (extract_source_archive ["p", "p"] ["p"]).matched := by
  decide

/-- C3 (amended): for every archive and every DUPLICATE-FREE denylist, the
remaining cleaning list after extraction contains exactly the denylist
entries whose path occurs nowhere in the archive, and each remaining entry is
surfaced as a `File does not exist in tar file` warning by
`setup_chromium_source`.  (The original claim, quantified over all denylists,
fails on denylists with duplicate entries; see the counterexample.) -/
theorem C3_leftover_denylist (entries cleaning : List String)
    (hnd : cleaning.Nodup) :
    (∀ c, c ∈ (extract_source_archive entries cleaning).cleaning ↔
        (c ∈ cleaning ∧ c ∉ entries))
    ∧ (∀ c ∈ (extract_source_archive entries cleaning).cleaning,
        ("File does not exist in tar file: " ++ c) ∈
          extract_cleaning_warnings entries cleaning) := by
  constructor
  · intro c
    unfold extract_source_archive
    rw [extract_foldl_cleaning]
    exact cleaning_fold_mem entries cleaning hnd c
  · intro c hc
    unfold extract_cleaning_warnings
    exact List.mem_map_of_mem _ hc

/-- Witness for C3: denylist `a/b.txt`, `c/d.txt` against an archive holding
`a/b.txt` and `e/f.txt`; the leftover is exactly `c/d.txt` and it is warned
about. -/
theorem C3_leftover_denylist_witness :
    (["a/b.txt", "c/d.txt"] : List String).Nodup ∧
    ((∀ c, c ∈ (extract_source_archive ["a/b.txt", "e/f.txt"]
                 ["a/b.txt", "c/d.txt"]).cleaning ↔
        (c ∈ ["a/b.txt", "c/d.txt"] ∧ c ∉ ["a/b.txt", "e/f.txt"]))
     ∧ (∀ c ∈ (extract_source_archive ["a/b.txt", "e/f.txt"]
                ["a/b.txt", "c/d.txt"]).cleaning,
        ("File does not exist in tar file: " ++ c) ∈
          extract_cleaning_warnings ["a/b.txt", "e/f.txt"]
            ["a/b.txt", "c/d.txt"])) :=
  ⟨by decide, C3_leftover_denylist _ _ (by decide)⟩

/-- Counterexample to C3 as stated: denylist `[p, p]` against an archive
containing `p`.  Only the first copy of `p` is removed, so `p` remains in the
final cleaning list although `p` IS present in the archive — the remainder is
not `denylist minus {paths present in the archive}`, and the surfaced entry
is not a promised-but-never-observed path. -/
theorem C3_leftover_denylist_counterexample :
    "p" ∈ (extract_source_archive ["p"] ["p", "p"]).cleaning ∧
    "p" ∈ (["p"] : List String) := by
  decide

/-! ## Lemmas about the substitution engine -/

/-- File contents produced by one engine run: each file maps to its
substituted content when some rule fired, and to its original content
otherwise. -/
lemma domain_substitute_fst (rules : List SubRule) :
    ∀ (files : List (String × Bytes)) (lw : Bool),
      (domain_substitute rules files lw).1 =
        files.map (fun f => (f.1, substituteFileContent rules f.2)) := by
  intro files
  induction files with
  | nil => intro lw; rfl
  | cons f rest ih =>
    intro lw
    obtain ⟨path, content⟩ := f
    simp only [domain_substitute, List.map_cons, ih, substituteFileContent]

/-- Warnings of one engine run with warnings enabled: exactly the files whose
total substitution count is zero, in order. -/
lemma domain_substitute_snd_true (rules : List SubRule) :
    ∀ (files : List (String × Bytes)),
      (domain_substitute rules files true).2 =
        (files.filter (fun f => (applyRulesAux rules (f.2, 0)).2 == 0)).map
          (fun f => "File " ++ f.1 ++ " has no matches") := by
  intro files
  induction files with
  | nil => rfl
  | cons f rest ih =>
    obtain ⟨path, content⟩ := f
    simp only [domain_substitute, ih, List.filter_cons]
    by_cases h : (applyRulesAux rules (content, 0)).2 = 0
    · simp [h]
    · simp [h]

/-- With warnings disabled no warning is emitted. -/
lemma domain_substitute_snd_false (rules : List SubRule) :
    ∀ (files : List (String × Bytes)),
      (domain_substitute rules files false).2 = [] := by
  intro files
  induction files with
  | nil => rfl
  | cons f rest ih =>
    obtain ⟨path, content⟩ := f
    simp only [domain_substitute, ih]
    simp

/-- A `literalSubnFuel` run reporting zero substitutions left the content
unchanged. -/
lemma literalSubnFuel_zero_fix (pat repl : Bytes) :
    ∀ (fuel : Nat) (c : Bytes), (literalSubnFuel pat repl fuel c).2 = 0 →
      (literalSubnFuel pat repl fuel c).1 = c := by
  intro fuel
  induction fuel with
  | zero => intro c _; rfl
  | succ n ih =>
    intro c hc
    cases c with
    | nil => rfl
    | cons b bs =>
      by_cases h : pat ≠ [] ∧ pat.isPrefixOf (b :: bs)
      · exfalso
        simp only [literalSubnFuel, if_pos h] at hc
        omega
      · simp only [literalSubnFuel, if_neg h] at hc ⊢
        rw [ih bs hc]

/-- A content on which every rule of a literal rule set makes zero
substitutions is a fixed point of the whole rule pipeline. -/
lemma applyRulesAux_fixpoint (specs : List (Bytes × Bytes)) :
    ∀ (c : Bytes) (n : Nat),
      (∀ s ∈ specs, (literalSubn s.1 s.2 c).2 = 0) →
      applyRulesAux (rulesOf specs) (c, n) = (c, n) := by
  induction specs with
  | nil => intro c n _; rfl
  | cons s ss ih =>
    intro c n h
    have hs : (literalSubn s.1 s.2 c).2 = 0 := h s (List.mem_cons_self _ _)
    have hfix : (literalSubn s.1 s.2 c).1 = c :=
      literalSubnFuel_zero_fix _ _ _ _ hs
    simp only [rulesOf, List.map_cons, applyRulesAux, hfix, hs, Nat.add_zero]
    exact ih c n (fun t ht => h t (List.mem_cons_of_mem _ ht))

/-- A run of the engine over files that are all fixed points of the rule
pipeline changes nothing and its total substitution count is zero. -/
lemma total_substitutions_zero (rules : List SubRule) :
    ∀ (files : List (String × Bytes)) (acc : Nat),
      (∀ f ∈ files, (applyRulesAux rules (f.2, 0)).2 = 0) →
      files.foldl (fun acc f => acc + (applyRulesAux rules (f.2, 0)).2) acc = acc := by
  intro files
  induction files with
  | nil => intro acc _; rfl
  | cons f rest ih =>
    intro acc h
    rw [List.foldl_cons, h f (List.mem_cons_self _ _), Nat.add_zero]
    exact ih acc (fun g hg => h g (List.mem_cons_of_mem _ hg))

/-! ## Claim C4: substitution engine behaviour -/

/-- C4 (confirmed): the engine applies the rules in list order with each
rule's output feeding the next rule's input (`applyRulesAux`), sums the
substitution counts, overwrites the file with the transformed bytes exactly
when the total is positive and leaves it byte-identical otherwise, and — when
warnings are enabled — emits a no-match warning exactly for the zero-count
files.  The final conjunct is the spec's concrete scenario: under rule
`foo#bar`, a file containing `foo` once becomes the same bytes with `bar`
substituted (count 1), and a file without `foo` is unchanged and warned
about. -/
theorem C4_substitution_engine (rules : List SubRule)
    (files : List (String × Bytes)) :
    (∀ lw, (domain_substitute rules files lw).1 =
        files.map (fun f => (f.1, substituteFileContent rules f.2)))
    ∧ (domain_substitute rules files true).2 =
        (files.filter (fun f => (applyRulesAux rules (f.2, 0)).2 == 0)).map
          (fun f => "File " ++ f.1 ++ " has no matches")
    ∧ (domain_substitute rules files false).2 = []
    ∧ domain_substitute (rulesOf [([102, 111, 111], [98, 97, 114])])
        [("one", [120, 102, 111, 111, 121]), ("two", [104, 105])] true =
        ([("one", [120, 98, 97, 114, 121]), ("two", [104, 105])],
          ["File two has no matches"])
    ∧ (applyRulesAux (rulesOf [([102, 111, 111], [98, 97, 114])])
        ([120, 102, 111, 111, 121], 0)).2 = 1 :=
  ⟨fun lw => domain_substitute_fst rules files lw,
   domain_substitute_snd_true rules files,
   domain_substitute_snd_false rules files,
   by decide, by decide⟩

/-! ## Claim C8: idempotence of the substitution engine -/

/-- C8 (amended): the stated well-formedness condition — no rule whose
replacement re-matches its own pattern — is NOT sufficient for idempotence
(see the counterexample, where two well-formed rules re-create each other's
matches).  What holds is: whenever every file produced by the first engine
run is matched by no rule pattern, the second run performs zero substitutions
in total and leaves every file byte-identical. -/
theorem C8_second_pass_zero (specs : List (Bytes × Bytes))
    (files : List (String × Bytes)) (lw lw2 : Bool)
    (h : ∀ f ∈ (domain_substitute (rulesOf specs) files lw).1,
        ∀ s ∈ specs, (literalSubn s.1 s.2 f.2).2 = 0) :
    total_substitutions (rulesOf specs)
        (domain_substitute (rulesOf specs) files lw).1 = 0 ∧
    (domain_substitute (rulesOf specs)
        ((domain_substitute (rulesOf specs) files lw).1) lw2).1 =
      (domain_substitute (rulesOf specs) files lw).1 := by
  have hfix : ∀ f ∈ (domain_substitute (rulesOf specs) files lw).1,
      applyRulesAux (rulesOf specs) (f.2, 0) = (f.2, 0) := by
    intro f hf
    exact applyRulesAux_fixpoint specs f.2 0 (h f hf)
  constructor
  · unfold total_substitutions
    exact total_substitutions_zero _ _ 0 (fun f hf => by rw [hfix f hf])
  · rw [domain_substitute_fst]
    have : ∀ f ∈ (domain_substitute (rulesOf specs) files lw).1,
        (f.1, substituteFileContent (rulesOf specs) f.2) = f := by
      intro f hf
      unfold substituteFileContent
      rw [hfix f hf]
      simp
    calc (domain_substitute (rulesOf specs) files lw).1.map
          (fun f => (f.1, substituteFileContent (rulesOf specs) f.2))
        = (domain_substitute (rulesOf specs) files lw).1.map id :=
          List.map_congr_left this
      _ = (domain_substitute (rulesOf specs) files lw).1 := List.map_id _

/-- Witness for C8: rule `foo#bar` over a file containing exactly `foo`; the
first pass yields `bar`, which no rule matches, so the second pass is a
no-op with zero substitutions. -/
theorem C8_second_pass_zero_witness :
    (∀ f ∈ (domain_substitute (rulesOf [([102, 111, 111], [98, 97, 114])])
            [("f", [102, 111, 111])] false).1,
        ∀ s ∈ [(([102, 111, 111] : Bytes), ([98, 97, 114] : Bytes))],
          (literalSubn s.1 s.2 f.2).2 = 0) ∧
    (total_substitutions (rulesOf [([102, 111, 111], [98, 97, 114])])
        (domain_substitute (rulesOf [([102, 111, 111], [98, 97, 114])])
          [("f", [102, 111, 111])] false).1 = 0 ∧
      (domain_substitute (rulesOf [([102, 111, 111], [98, 97, 114])])
          ((domain_substitute (rulesOf [([102, 111, 111], [98, 97, 114])])
            [("f", [102, 111, 111])] false).1) false).1 =
        (domain_substitute (rulesOf [([102, 111, 111], [98, 97, 114])])
          [("f", [102, 111, 111])] false).1) :=
  ⟨by decide, C8_second_pass_zero _ _ false false (by decide)⟩

/-- Counterexample to C8 as stated: the rule set `a#b`, `b#a` is well-formed
in the claim's sense (neither replacement re-matches its own pattern), yet on
a file containing `a` the first pass performs two substitutions and writes
the file, and a second pass performs two MORE substitutions — not zero. -/
theorem C8_second_pass_zero_counterexample :
    wellFormedRules [([97], [98]), ([98], [97])] = true ∧
    total_substitutions (rulesOf [([97], [98]), ([98], [97])])
        ((domain_substitute (rulesOf [([97], [98]), ([98], [97])])
          [("f", [97])] false).1) ≠ 0 := by
  decide

/-! ## Lemmas about regex-list parsing -/

/-- A byte-split never produces an empty part list. -/
lemma splitOnByte_ne_nil (b : Nat) : ∀ (l : Bytes), splitOnByte b l ≠ [] := by
  intro l
  cases l with
  | nil => simp [splitOnByte]
  | cons c cs =>
    simp only [splitOnByte]
    cases h : splitOnByte b cs with
    | nil => simp
    | cons x xs =>
      by_cases hc : c = b
      · simp [hc]
      · simp [hc]

/-- First part of a byte-split: the longest separator-free head segment. -/
lemma splitOnByte_head (b : Nat) :
    ∀ (l : Bytes), ∃ ys, splitOnByte b l = l.takeWhile (· != b) :: ys := by
  intro l
  induction l with
  | nil => exact ⟨[], rfl⟩
  | cons c cs ih =>
    obtain ⟨ys, hys⟩ := ih
    by_cases hc : c = b
    · refine ⟨cs.takeWhile (· != b) :: ys, ?_⟩
      simp only [splitOnByte, hys, if_pos hc, List.takeWhile_cons]
      subst hc
      simp
    · refine ⟨ys, ?_⟩
      simp only [splitOnByte, hys, if_neg hc, List.takeWhile_cons]
      have : (c != b) = true := by simp [hc]
      simp [this]

/-- Splitting a byte string whose head segment `pre` is separator-free and is
followed by a separator peels off `pre` as the first part. -/
lemma splitOnByte_append (b : Nat) (pre rest : Bytes) (h : b ∉ pre) :
    splitOnByte b (pre ++ b :: rest) = pre :: splitOnByte b rest := by
  induction pre with
  | nil =>
    simp only [List.nil_append, splitOnByte]
    cases hs : splitOnByte b rest with
    | nil => exact absurd hs (splitOnByte_ne_nil b rest)
    | cons x xs => simp
  | cons c cs ih =>
    have hc : c ≠ b := fun hcb => h (hcb ▸ List.mem_cons_self _ _)
    have hcs : b ∉ cs := fun hmem => h (List.mem_cons_of_mem _ hmem)
    simp only [List.cons_append, splitOnByte, List.append_eq]
    rw [ih hcs]
    simp [hc]

/-- A byte string free of the separator splits into itself alone. -/
lemma splitOnByte_no_occ (b : Nat) : ∀ (l : Bytes), b ∉ l →
    splitOnByte b l = [l] := by
  intro l
  induction l with
  | nil => intro _; rfl
  | cons c cs ih =>
    intro h
    have hc : c ≠ b := fun hcb => h (hcb ▸ List.mem_cons_self _ _)
    have hcs : b ∉ cs := fun hmem => h (List.mem_cons_of_mem _ hmem)
    simp only [splitOnByte, ih hcs, if_neg hc]

/-- The only exception `parseRegexLine` raises is the `IndexError` of
`expression[1]`. -/
lemma parseRegexLine_error_eq (l : Bytes) (e : String)
    (h : parseRegexLine l = .error e) : e = "IndexError" := by
  unfold parseRegexLine at h
  cases hs : splitOnByte 35 l with
  | nil => exact absurd hs (splitOnByte_ne_nil 35 l)
  | cons p0 ps =>
    cases ps with
    | nil =>
      rw [hs] at h
      have h2 : "IndexError" = e := by simpa using h
      exact h2.symm
    | cons p1 ps' =>
      rw [hs] at h
      simp at h

/-- If any line of the list fails to parse, the whole loop raises
`IndexError`. -/
lemma parseRegexLines_error : ∀ (lines : List Bytes) (l : Bytes),
    l ∈ lines → parseRegexLine l = .error "IndexError" →
    parseRegexLines lines = .error "IndexError" := by
  intro lines
  induction lines with
  | nil => intro l hl _; simp at hl
  | cons x rest ih =>
    intro l hl he
    simp only [parseRegexLines]
    cases hx : parseRegexLine x with
    | error e => rw [parseRegexLine_error_eq x e hx]
    | ok r =>
      have hlr : l ∈ rest := by
        rcases List.mem_cons.1 hl with rfl | hlr
        · rw [hx] at he; exact absurd he (by simp)
        · exact hlr
      rw [ih l hlr he]

/-! ## Claim C6: regex-list line splitting -/

/-- C6 (amended): a regex-list line is split on EVERY `#` byte (Python
`split(b'#')` with no maxsplit), the pattern is the segment before the first
`#`, and the replacement is the segment between the first and the second `#`
— NOT all the bytes after the first `#`: when the remainder contains a
further `#`, the replacement is strictly shorter than the remainder, and the
bytes from the second `#` on are silently dropped. -/
theorem C6_regex_line_split (pre rest : Bytes) (h : 35 ∉ pre) :
    parseRegexLine (pre ++ 35 :: rest) =
      .ok (pre, rest.takeWhile (· != 35)) ∧
    (35 ∈ rest → rest.takeWhile (· != 35) ≠ rest) := by
  constructor
  · unfold parseRegexLine
    rw [splitOnByte_append 35 pre rest h]
    obtain ⟨ys, hys⟩ := splitOnByte_head 35 rest
    rw [hys]
  · intro hmem heq
    rw [← heq] at hmem
    have h2 := List.mem_takeWhile_imp hmem
    simp at h2

/-- Witness for C6: the line `a#b#c` parses to pattern `a` and replacement
`b`, dropping `#c`. -/
theorem C6_regex_line_split_witness :
    (35 : Nat) ∉ ([97] : Bytes) ∧
    (parseRegexLine ([97] ++ 35 :: [98, 35, 99]) =
        .ok ([97], ([98, 35, 99] : Bytes).takeWhile (· != 35)) ∧
      ((35 : Nat) ∈ ([98, 35, 99] : Bytes) →
        ([98, 35, 99] : Bytes).takeWhile (· != 35) ≠ [98, 35, 99])) :=
  ⟨by decide, C6_regex_line_split [97] [98, 35, 99] (by decide)⟩

/-- Counterexample to C6 as stated: for the line `a#b#c` the code keeps only
`b` as the replacement, not the full remainder `b#c` — a replacement
containing a further `#` byte is NOT preserved in full. -/
theorem C6_regex_line_split_counterexample :
    get_parsed_domain_regexes [[97, 35, 98, 35, 99]] none =
      .ok [([97], [98])] ∧
    ([98] : Bytes) ≠ [98, 35, 99] := by
  constructor
  · rfl
  · decide

/-! ## Claim C10: lines without a separator -/

/-- C10 (amended): every NON-EMPTY regex-list line containing no `#` byte
makes parsing raise `IndexError` (the single-element split has no
`expression[1]`), so such a malformed resource aborts instead of yielding a
rule set; empty lines, however, are filtered out by `_read_list_resource`
(`len(x) > 0`) BEFORE parsing and raise nothing — the original claim is
false for them. -/
theorem C10_no_separator_error (common : List Bytes)
    (platform : Option (List Bytes)) (l : Bytes)
    (hmem : l ∈ read_list_resource common platform) (hnh : 35 ∉ l) :
    get_parsed_domain_regexes common platform = .error "IndexError" ∧
    (∀ (c2 : List Bytes) (p2 : Option (List Bytes)),
      get_parsed_domain_regexes ([] :: c2) p2 =
        get_parsed_domain_regexes c2 p2) := by
  constructor
  · unfold get_parsed_domain_regexes
    refine parseRegexLines_error _ l hmem ?_
    unfold parseRegexLine
    rw [splitOnByte_no_occ 35 l hnh]
  · intro c2 p2
    unfold get_parsed_domain_regexes read_list_resource
    simp

/-- Witness for C10: the resource line `a` (no `#`) aborts parsing. -/
theorem C10_no_separator_error_witness :
    ([97] : Bytes) ∈ read_list_resource [[97]] none ∧ (35 : Nat) ∉ ([97] : Bytes) ∧
    (get_parsed_domain_regexes [[97]] none = .error "IndexError" ∧
      (∀ (c2 : List Bytes) (p2 : Option (List Bytes)),
        get_parsed_domain_regexes ([] :: c2) p2 =
          get_parsed_domain_regexes c2 p2)) :=
  ⟨by decide, by decide, C10_no_separator_error [[97]] none [97] (by decide) (by decide)⟩

/-- Counterexample to C10 as stated: a resource consisting of an empty line
(which contains no `#` byte) followed by `a#b` parses successfully — the
empty line is skipped by the non-empty filter of `_read_list_resource`, no
error is raised, and a rule set is returned. -/
theorem C10_no_separator_error_counterexample :
    get_parsed_domain_regexes [[], [97, 35, 98]] none = .ok [([97], [98])] ∧
    (35 : Nat) ∉ ([] : Bytes) := by
  constructor
  · rfl
  · decide

/-! ## Lemmas about the hash manifest check -/

/-- Processing a passing line prepends its log events and continues with the
remaining lines. -/
lemma check_cons_ok (available : List String) (digestOf : String → String)
    (line : String) (rest : List String)
    (h : hashLineOk available digestOf line = true) :
    check_source_archive available digestOf (line :: rest) =
      match check_source_archive available digestOf rest with
      | .error e => .error e
      | .ok (evs, b) => .ok (hashLineEvents available line ++ evs, b) := by
  unfold hashLineOk at h
  simp only [check_source_archive]
  unfold hashLineEvents
  by_cases hmem : (splitDoubleSpace line).headI ∈ available
  · simp only [if_pos hmem] at h ⊢
    cases hp : (splitDoubleSpace line)[1]? with
    | none => rw [hp] at h; simp at h
    | some expected =>
      rw [hp] at h
      have heq : digestOf (splitDoubleSpace line).headI = expected := by
        simpa using h
      simp only [heq, if_pos rfl]
      cases check_source_archive available digestOf rest with
      | error e => simp
      | ok p => obtain ⟨evs, b⟩ := p; simp
  · simp only [if_neg hmem] at h ⊢
    cases check_source_archive available digestOf rest with
    | error e => simp
    | ok p => obtain ⟨evs, b⟩ := p; simp

/-- Processing a mismatching line stops the whole check at once: the info and
error events of that line close the log, the early `return None` of line 124
is taken, and any following manifest lines are never examined. -/
lemma check_cons_mismatch (available : List String) (digestOf : String → String)
    (line alg expected : String) (t post : List String)
    (hsplit : splitDoubleSpace line = alg :: expected :: t)
    (halg : alg ∈ available) (hmis : digestOf alg ≠ expected) :
    check_source_archive available digestOf (line :: post) =
      .ok ([⟨.info, msgRunning alg⟩, ⟨.error, msgMismatch alg expected⟩], true) := by
  unfold check_source_archive
  rw [hsplit]
  simp [halg, hmis]

/-- Processing a block of passing lines prepends their events to whatever the
remaining lines produce. -/
lemma check_append_ok (available : List String) (digestOf : String → String)
    (pre : List String)
    (h : ∀ l ∈ pre, hashLineOk available digestOf l = true) :
    ∀ (rest : List String),
      check_source_archive available digestOf (pre ++ rest) =
        match check_source_archive available digestOf rest with
        | .error e => .error e
        | .ok (evs, b) => .ok (hashLinesEvents available pre ++ evs, b) := by
  induction pre with
  | nil =>
    intro rest
    simp only [List.nil_append, hashLinesEvents]
    cases check_source_archive available digestOf rest with
    | error e => rfl
    | ok p => obtain ⟨evs, b⟩ := p; simp
  | cons l pre' ih =>
    intro rest
    rw [List.cons_append,
      check_cons_ok available digestOf l (pre' ++ rest)
        (h l (List.mem_cons_self _ _)),
      ih (fun x hx => h x (List.mem_cons_of_mem _ hx)) rest]
    cases check_source_archive available digestOf rest with
    | error e => rfl
    | ok p =>
      obtain ⟨evs, b⟩ := p
      simp [hashLinesEvents, List.append_assoc]

/-! ## Claim C1: mismatch reporting and (non-)fatality -/

/-- C1 (amended): for every manifest whose lines up to the first mismatch all
pass, whose mismatching line has an available algorithm `alg` and an expected
digest differing from the recomputed one, the check stops at that line and
logs an error message that identifies the algorithm and the EXPECTED digest
only — the message is literally `Archive does not have matching '<alg>' hash
'<expected>'`, and the recomputed digest does not appear in it (see the
counterexample) — and the mismatch is NOT fatal: `setup_chromium_source`
discards the check's return value (which is `None` on success and mismatch
alike) and proceeds to extract the archive exactly as it would on success. -/
theorem C1_mismatch_report_not_fatal (available : List String)
    (digestOf : String → String) (pre post : List String)
    (line alg expected : String) (t : List String)
    (entries cleaning : List String)
    (hpre : ∀ l ∈ pre, hashLineOk available digestOf l = true)
    (hsplit : splitDoubleSpace line = alg :: expected :: t)
    (halg : alg ∈ available) (hmis : digestOf alg ≠ expected) :
    check_source_archive available digestOf (pre ++ line :: post) =
      .ok (hashLinesEvents available pre ++
        [⟨.info, msgRunning alg⟩, ⟨.error, msgMismatch alg expected⟩], true) ∧
    setup_source_tail available digestOf (pre ++ line :: post)
        entries cleaning =
      .ok (hashLinesEvents available pre ++
        [⟨.info, msgRunning alg⟩, ⟨.error, msgMismatch alg expected⟩],
        extract_source_archive entries cleaning,
        extract_cleaning_warnings entries cleaning) := by
  have hchk : check_source_archive available digestOf (pre ++ line :: post) =
      .ok (hashLinesEvents available pre ++
        [⟨.info, msgRunning alg⟩, ⟨.error, msgMismatch alg expected⟩], true) := by
    rw [check_append_ok available digestOf pre hpre (line :: post),
      check_cons_mismatch available digestOf line alg expected t post
        hsplit halg hmis]
  refine ⟨hchk, ?_⟩
  unfold setup_source_tail
  rw [hchk]

/-- Witness for C1: manifest `foo  x` (unavailable algorithm, skipped with a
warning) followed by a mismatching `md5` line with expected digest `0000`,
recomputed digest `d41d8cd98f00b204e9800998ecf8427e` (the md5 of the empty
byte string); a further line after the mismatch is never processed, and the
pipeline still extracts the archive entry `a`. -/
theorem C1_mismatch_report_not_fatal_witness :
    (∀ l ∈ ["foo  x"],
      hashLineOk ["md5"] (fun _ => "d41d8cd98f00b204e9800998ecf8427e") l = true) ∧
    splitDoubleSpace "md5  0000" = ["md5", "0000"] ∧
    "md5" ∈ ["md5"] ∧
    (fun (_ : String) => "d41d8cd98f00b204e9800998ecf8427e") "md5" ≠ "0000" ∧
    (check_source_archive ["md5"] (fun _ => "d41d8cd98f00b204e9800998ecf8427e")
        (["foo  x"] ++ "md5  0000" :: ["sha1  ffff"]) =
      .ok (hashLinesEvents ["md5"] ["foo  x"] ++
        [⟨.info, msgRunning "md5"⟩, ⟨.error, msgMismatch "md5" "0000"⟩], true) ∧
    setup_source_tail ["md5"] (fun _ => "d41d8cd98f00b204e9800998ecf8427e")
        (["foo  x"] ++ "md5  0000" :: ["sha1  ffff"]) ["a"] ["b"] =
      .ok (hashLinesEvents ["md5"] ["foo  x"] ++
        [⟨.info, msgRunning "md5"⟩, ⟨.error, msgMismatch "md5" "0000"⟩],
        extract_source_archive ["a"] ["b"],
        extract_cleaning_warnings ["a"] ["b"])) :=
  ⟨by decide, by decide, by decide, by decide,
    C1_mismatch_report_not_fatal ["md5"] _ ["foo  x"] ["sha1  ffff"]
      "md5  0000" "md5" "0000" [] ["a"] ["b"]
      (by decide) (by decide) (by decide) (by decide)⟩

/-- Counterexample to C1 as stated: on a concrete mismatch the failure log
message contains the algorithm and the expected digest, but the recomputed
digest (`d41d8cd98f00b204e9800998ecf8427e`) does NOT occur anywhere in it —
the failure does not identify both digest values. -/
theorem C1_mismatch_report_counterexample :
    check_source_archive ["md5"] (fun _ => "d41d8cd98f00b204e9800998ecf8427e")
        ["md5  0000"] =
      .ok ([⟨.info, "Running \x27md5\x27 hash check..."⟩,
        ⟨.error, "Archive does not have matching \x27md5\x27 hash \x270000\x27"⟩],
        true) ∧
    strContains "Archive does not have matching \x27md5\x27 hash \x270000\x27"
      "d41d8cd98f00b204e9800998ecf8427e" = false := by
  constructor
  · rfl
  · rfl

/-! ## Claim C7: digest comparison is case-sensitive -/

/-- C7 (amended): the verifier compares the recomputed digest to the expected
digest by EXACT string equality (`==` at line 120), not case-insensitively: a
single-line manifest with an available algorithm matches exactly when the two
strings are equal, and mismatches otherwise — in particular expected digests
differing from the (always lower-case) `hexdigest()` output only in hex
letter case are rejected (see the counterexample). -/
theorem C7_digest_comparison_exact (available : List String)
    (digestOf : String → String) (line alg expected : String) (t : List String)
    (hsplit : splitDoubleSpace line = alg :: expected :: t)
    (halg : alg ∈ available) :
    check_source_archive available digestOf [line] =
      (if digestOf alg = expected then
        .ok ([⟨.info, msgRunning alg⟩, ⟨.debug, msgMatches alg⟩], false)
      else
        .ok ([⟨.info, msgRunning alg⟩, ⟨.error, msgMismatch alg expected⟩],
          true)) := by
  by_cases heq : digestOf alg = expected
  · rw [if_pos heq]
    unfold check_source_archive
    rw [hsplit]
    simp [halg, heq, check_source_archive]
  · rw [if_neg heq]
    exact check_cons_mismatch available digestOf line alg expected t []
      hsplit halg heq

/-- Witness for C7: a matching single-line manifest with the exact lower-case
digest. -/
theorem C7_digest_comparison_exact_witness :
    splitDoubleSpace "md5  d41d8cd98f00b204e9800998ecf8427e" =
      ["md5", "d41d8cd98f00b204e9800998ecf8427e"] ∧
    "md5" ∈ ["md5"] ∧
    check_source_archive ["md5"] (fun _ => "d41d8cd98f00b204e9800998ecf8427e")
        ["md5  d41d8cd98f00b204e9800998ecf8427e"] =
      (if (fun (_ : String) => "d41d8cd98f00b204e9800998ecf8427e") "md5" =
          "d41d8cd98f00b204e9800998ecf8427e" then
        .ok ([⟨.info, msgRunning "md5"⟩, ⟨.debug, msgMatches "md5"⟩], false)
      else
        .ok ([⟨.info, msgRunning "md5"⟩,
          ⟨.error, msgMismatch "md5" "d41d8cd98f00b204e9800998ecf8427e"⟩],
          true)) :=
  ⟨by decide, by decide,
    C7_digest_comparison_exact ["md5"] _ "md5  d41d8cd98f00b204e9800998ecf8427e"
      "md5" "d41d8cd98f00b204e9800998ecf8427e" [] (by decide) (by decide)⟩

/-- Counterexample to C7 as stated: an expected digest that differs from the
recomputed digest only in hex letter case (upper-case vs the lower-case
`hexdigest()` output) is NOT accepted as a match — the check reports a
mismatch and stops. -/
theorem C7_digest_comparison_counterexample :
    check_source_archive ["md5"] (fun _ => "d41d8cd98f00b204e9800998ecf8427e")
        ["md5  D41D8CD98F00B204E9800998ECF8427E"] =
      .ok ([⟨.info, "Running \x27md5\x27 hash check..."⟩,
        ⟨.error, "Archive does not have matching \x27md5\x27 hash \x27D41D8CD98F00B204E9800998ECF8427E\x27"⟩],
        true) ∧
    "D41D8CD98F00B204E9800998ECF8427E".toList.map asciiLower =
      "d41d8cd98f00b204e9800998ecf8427e".toList ∧
    "D41D8CD98F00B204E9800998ECF8427E" ≠
      "d41d8cd98f00b204e9800998ecf8427e" := by
  refine ⟨rfl, ?_, by decide⟩
  decide

/-! ## Lemmas about file trees and line counting -/

/-- A removed file is gone. -/
lemma lookupFile_removeFile_self (m : FileMap) (k : String) :
    lookupFile (removeFile m k) k = none := by
  induction m with
  | nil => rfl
  | cons q rest ih =>
    obtain ⟨k2, v2⟩ := q
    by_cases h : k2 = k
    · simpa [removeFile, List.filter_cons, h] using ih
    · simpa [removeFile, List.filter_cons, lookupFile, h] using ih

/-- Removing one file leaves the others untouched. -/
lemma lookupFile_removeFile_ne (m : FileMap) (k k2 : String) (h : k2 ≠ k) :
    lookupFile (removeFile m k2) k = lookupFile m k := by
  induction m with
  | nil => rfl
  | cons q rest ih =>
    obtain ⟨k3, v3⟩ := q
    have h5 : k ≠ k2 := fun hh => h hh.symm
    by_cases h3 : k3 = k2
    · subst h3
      simpa [removeFile, List.filter_cons, lookupFile, h] using ih
    · by_cases h4 : k3 = k
      · simp [removeFile, List.filter_cons, lookupFile, h3, h4, h5]
      · simpa [removeFile, List.filter_cons, lookupFile, h3, h4] using ih

/-- Lookup distributes over concatenation of trees. -/
lemma lookupFile_append (m1 m2 : FileMap) (k : String) :
    lookupFile (m1 ++ m2) k =
      match lookupFile m1 k with
      | none => lookupFile m2 k
      | some v => some v := by
  induction m1 with
  | nil => simp [lookupFile]
  | cons q rest ih =>
    obtain ⟨k2, v2⟩ := q
    by_cases h : k2 = k
    · simp [lookupFile, h]
    · simp [lookupFile, h, ih]

/-- A freshly written file is found with its new content. -/
lemma lookupFile_setFile_self (m : FileMap) (k v : String) :
    lookupFile (setFile m k v) k = some v := by
  unfold setFile
  rw [lookupFile_append, lookupFile_removeFile_self]
  simp [lookupFile]

/-- Writing one file leaves the others untouched. -/
lemma lookupFile_setFile_ne (m : FileMap) (k k2 v : String) (h : k2 ≠ k) :
    lookupFile (setFile m k2 v) k = lookupFile m k := by
  unfold setFile
  rw [lookupFile_append, lookupFile_removeFile_ne m k k2 h]
  cases lookupFile m k with
  | none => simp [lookupFile, h]
  | some w => rfl

/-- After removal, no entry of the given name remains in the tree. -/
lemma filter_removeFile (m : FileMap) (k : String) :
    (removeFile m k).filter (fun p => p.1 == k) = [] := by
  induction m with
  | nil => rfl
  | cons q rest ih =>
    obtain ⟨k2, v2⟩ := q
    by_cases h : k2 = k
    · simpa [removeFile, List.filter_cons, h] using ih
    · simp only [removeFile, List.filter_cons] at ih ⊢
      simp only [h, decide_not]
      simpa [List.filter_cons, h] using ih

/-- After a write, exactly one entry of the given name is in the tree. -/
lemma filter_setFile (m : FileMap) (k v : String) :
    (setFile m k v).filter (fun p => p.1 == k) = [(k, v)] := by
  unfold setFile
  rw [List.filter_append, filter_removeFile]
  simp

/-- Overlaying a tree that lacks a file name does not affect that name. -/
lemma lookupFile_overlay_none (upper : FileMap) :
    ∀ (base : FileMap) (k : String), lookupFile upper k = none →
      lookupFile (overlayFiles base upper) k = lookupFile base k := by
  induction upper with
  | nil => intro base k _; rfl
  | cons q rest ih =>
    intro base k h
    obtain ⟨k2, v2⟩ := q
    have h2 : k2 ≠ k := by
      intro hk; rw [hk] at h; simp [lookupFile] at h
    have hrest : lookupFile rest k = none := by
      simpa [lookupFile, h2] using h
    unfold overlayFiles at ih ⊢
    rw [List.foldl_cons]
    rw [ih (setFile base k2 v2) k hrest]
    exact lookupFile_setFile_ne base k k2 v2 h2

/-- Overlaying a tree that contains a file name makes that name present in
the result. -/
lemma lookupFile_overlay_some (upper : FileMap) :
    ∀ (base : FileMap) (k v : String), lookupFile upper k = some v →
      ∃ w, lookupFile (overlayFiles base upper) k = some w := by
  induction upper with
  | nil => intro base k v h; simp [lookupFile] at h
  | cons q rest ih =>
    intro base k v h
    obtain ⟨k2, v2⟩ := q
    unfold overlayFiles at ih ⊢
    rw [List.foldl_cons]
    cases hrest : lookupFile rest k with
    | some w => exact ih (setFile base k2 v2) k w hrest
    | none =>
      have h2 : k2 = k := by
        by_contra h2
        have hlk : lookupFile rest k = some v := by
          simpa [lookupFile, h2] using h
        rw [hrest] at hlk
        cases hlk
      subst h2
      refine ⟨v2, ?_⟩
      have hnone := lookupFile_overlay_none rest (setFile base k2 v2) k2 hrest
      unfold overlayFiles at hnone
      exact hnone.trans (lookupFile_setFile_self base k2 v2)

/-- Line counts add over concatenation when the first text is empty or ends
with a newline. -/
lemma countLinesList_append (a b : List Char)
    (h : a = [] ∨ a.getLast? = some (Char.ofNat 10)) :
    countLinesList (a ++ b) = countLinesList a + countLinesList b := by
  rcases h with rfl | hlast
  · simp [countLinesList]
  · have hane : a ≠ [] := by
      intro hh; rw [hh] at hlast; simp at hlast
    unfold countLinesList
    rw [List.count_append, List.getLast?_append]
    cases hgl : b.getLast? with
    | none =>
      have hbnil : b = [] := List.getLast?_eq_none_iff.1 hgl
      subst hbnil
      simp [hlast]
    | some y =>
      have hbne : b ≠ [] := by
        intro hh; rw [hh] at hgl; simp at hgl
      have habne : a ++ b ≠ [] := by simp [hane]
      simp only [hgl, Option.or_some, hlast]
      by_cases hy : y = Char.ofNat 10 <;>
        simp [hy, habne, hane, hbne, Nat.add_assoc]

/-- Line counts of strings add under the same condition. -/
lemma countLines_append (c p : String)
    (h : c = "" ∨ c.toList.getLast? = some (Char.ofNat 10)) :
    countLines (c ++ p) = countLines c + countLines p := by
  unfold countLines
  have htl : (c ++ p).toList = c.toList ++ p.toList := by
    simp [String.toList]
  rw [htl]
  apply countLinesList_append
  rcases h with rfl | hlast
  · left; rfl
  · right; exact hlast

/-! ## Claim C5: patch-order assembly -/

/-- C5 (amended): when the platform patches directory exists and has its own
patch-order file, `_generate_patches` writes a single concatenated
patch-order file `common ++ platform` (no copied-in placeholder remains: the
output holds exactly one entry of that name), and the output line count is
the sum of the two line counts PROVIDED the common order content is empty or
ends with a newline — plain string concatenation otherwise merges the last
common line with the first platform line (see the counterexample).  When no
platform override exists, the function does not produce an output order file
at all: with `PLATFORM_RESOURCES` unset it raises `TypeError` at line 198,
and with a platform patches tree lacking a patch-order file it raises
`FileNotFoundError` at the second placeholder unlink (line 210). -/
theorem C5_patch_order_line_count (commonFiles pf : FileMap) (c p : String)
    (hc : lookupFile commonFiles PATCH_ORDER = some c)
    (hp : lookupFile pf PATCH_ORDER = some p)
    (hnl : c = "" ∨ c.toList.getLast? = some (Char.ofNat 10)) :
    (∃ out, generate_patches commonFiles (some pf) false = .ok out ∧
      lookupFile out PATCH_ORDER = some (c ++ p) ∧
      out.filter (fun q => q.1 == PATCH_ORDER) = [(PATCH_ORDER, c ++ p)] ∧
      countLines (c ++ p) = countLines c + countLines p) ∧
    (∀ (cf2 : FileMap) (b : Bool),
      generate_patches cf2 none b = .error "TypeError") ∧
    (∀ (pf2 : FileMap) (b : Bool), lookupFile pf2 PATCH_ORDER = none →
      generate_patches commonFiles (some pf2) b = .error "FileNotFoundError") := by
  refine ⟨?_, ?_, ?_⟩
  · obtain ⟨w, hw⟩ :=
      lookupFile_overlay_some pf (removeFile commonFiles PATCH_ORDER)
        PATCH_ORDER p hp
    refine ⟨setFile
        (removeFile (overlayFiles (removeFile commonFiles PATCH_ORDER) pf)
          PATCH_ORDER)
        PATCH_ORDER (c ++ p), ?_, ?_, ?_, ?_⟩
    · simp only [generate_patches, hc, hp, hw]
      simp
    · exact lookupFile_setFile_self _ _ _
    · exact filter_setFile _ _ _
    · exact countLines_append c p hnl
  · intro cf2 b
    rfl
  · intro pf2 b h2
    have hnone : lookupFile
        (overlayFiles (removeFile commonFiles PATCH_ORDER) pf2)
        PATCH_ORDER = none := by
      rw [lookupFile_overlay_none pf2 _ PATCH_ORDER h2]
      exact lookupFile_removeFile_self commonFiles PATCH_ORDER
    simp only [generate_patches, hc, h2, hnone]

/-- Witness for C5: common order `a.patch` with a trailing newline, platform
order `b.patch` with a trailing newline; the output order file has
`1 + 1 = 2` lines, and both no-override shapes raise. -/
theorem C5_patch_order_line_count_witness :
    lookupFile [("patch_order", "a.patch\n")] PATCH_ORDER = some "a.patch\n" ∧
    lookupFile [("patch_order", "b.patch\n")] PATCH_ORDER = some "b.patch\n" ∧
    ("a.patch\n" = "" ∨
      "a.patch\n".toList.getLast? = some (Char.ofNat 10)) ∧
    ((∃ out, generate_patches [("patch_order", "a.patch\n")]
          (some [("patch_order", "b.patch\n")]) false = .ok out ∧
        lookupFile out PATCH_ORDER = some ("a.patch\n" ++ "b.patch\n") ∧
        out.filter (fun q => q.1 == PATCH_ORDER) =
          [(PATCH_ORDER, "a.patch\n" ++ "b.patch\n")] ∧
        countLines ("a.patch\n" ++ "b.patch\n") =
          countLines "a.patch\n" + countLines "b.patch\n") ∧
      (∀ (cf2 : FileMap) (b : Bool),
        generate_patches cf2 none b = .error "TypeError") ∧
      (∀ (pf2 : FileMap) (b : Bool), lookupFile pf2 PATCH_ORDER = none →
        generate_patches [("patch_order", "a.patch\n")] (some pf2) b =
          .error "FileNotFoundError")) :=
  ⟨rfl, rfl, Or.inr (by decide),
    C5_patch_order_line_count [("patch_order", "a.patch\n")]
      [("patch_order", "b.patch\n")] "a.patch\n" "b.patch\n"
      rfl rfl (Or.inr (by decide))⟩

/-- Counterexample to C5 as stated: with a common order file `a.patch` that
lacks a trailing newline and a platform order `b.patch`, the concatenated
output is the single line `a.patchb.patch` — one line, not `1 + 1 = 2` — and
with no platform override the function errors out instead of producing an
order file with the common line count. -/
theorem C5_patch_order_line_count_counterexample :
    generate_patches [("patch_order", "a.patch"), ("x.patch", "X")]
        (some [("patch_order", "b.patch")]) false =
      .ok [("x.patch", "X"), ("patch_order", "a.patchb.patch")] ∧
    countLines "a.patchb.patch" = 1 ∧
    countLines "a.patch" + countLines "b.patch" = 2 ∧
    generate_patches [("patch_order", "a.patch\n")] none false =
      .error "TypeError" ∧
    generate_patches [("patch_order", "a.patch\n")]
        (some [("y.patch", "Y")]) false = .error "FileNotFoundError" := by
  refine ⟨rfl, by decide, by decide, rfl, rfl⟩

/-! ## Claim C9: domain substitution over generated patches -/

/-- C9 (code bug): with `run_domain_substitution=True`, `_generate_patches`
never runs the substitution engine over the output directory's `*.patch`
files: line 216 reads `self.sandbox_patches`, an attribute that no method of
`GenericPlatform` ever assigns, so the call raises `AttributeError` after
writing the patch-order file — for every valid common and platform tree the
result is the `AttributeError`, not a substituted patch tree (and even as
written the expression names `sandbox_patches`, not the `output_dir` the
spec requires). -/
theorem C9_patch_substitution_attribute_error (commonFiles pf : FileMap)
    (c p : String)
    (hc : lookupFile commonFiles PATCH_ORDER = some c)
    (hp : lookupFile pf PATCH_ORDER = some p) :
    generate_patches commonFiles (some pf) true = .error "AttributeError" := by
  obtain ⟨w, hw⟩ :=
    lookupFile_overlay_some pf (removeFile commonFiles PATCH_ORDER)
      PATCH_ORDER p hp
  simp only [generate_patches, hc, hp, hw]
  simp

/-- Witness for C9: concrete common and platform patch trees; asking for
domain substitution yields the `AttributeError`. -/
theorem C9_patch_substitution_attribute_error_witness :
    lookupFile [("patch_order", "a.patch\n"), ("p1.patch", "hello")]
      PATCH_ORDER = some "a.patch\n" ∧
    lookupFile [("patch_order", "b.patch\n")] PATCH_ORDER = some "b.patch\n" ∧
    generate_patches [("patch_order", "a.patch\n"), ("p1.patch", "hello")]
        (some [("patch_order", "b.patch\n")]) true = .error "AttributeError" :=
  ⟨rfl, rfl,
    C9_patch_substitution_attribute_error
      [("patch_order", "a.patch\n"), ("p1.patch", "hello")]
      [("patch_order", "b.patch\n")] "a.patch\n" "b.patch\n" rfl rfl⟩

end UngoogledChromium
